import Mathlib

/-
Verification of the tilted-supercell generator (Rotation.py).

Shallow embedding over the reals:
- `solve_box_geometry` embeds the geometry solver (lines 57-68 of the
  source): the guard `length_sheet < 2 * h_spacing`, the discriminant
  `sqrt(L^4 - 4 (L s)^2)`, the planar length, the perpendicular length
  and the tilt angle.  Double precision arithmetic is modelled by exact
  real arithmetic.
- `create_tilted_cell` embeds the builder (lines 70-123): flat 6-atom
  cell, supercell along x, cartesian conversion (per-axis scale, the
  lattice being orthorhombic), centering of z around the mean, rigid
  rotation about y, new orthorhombic lattice and periodic wrapping.
  The external structure library (pymatgen) is not part of the
  repository; its behaviour (fractional/cartesian conversion, supercell
  replication, wrapping into [0,1) on reconstruction) is modelled from
  the spec's collaborator-interface description.
-/

namespace Rotation

/-- Error raised by the geometry solver when `length_sheet < 2 * h_spacing`
(the `ValueError("Geometry impossible: ...")` of the source, called
`GeometryImpossible` in the spec). -/
inductive GeomError where
  | GeometryImpossible : GeomError
  deriving DecidableEq

/-- Discriminant term `np.sqrt(length_sheet**4 - 4 * (length_sheet * h_spacing)**2)`
of source line 63. -/
noncomputable def termD (length_sheet h_spacing : ℝ) : ℝ :=
  Real.sqrt (length_sheet ^ 4 - 4 * (length_sheet * h_spacing) ^ 2)

/-- Planar length `np.sqrt((length_sheet**2 + term) / 2)` of source line 64. -/
noncomputable def L_planar (length_sheet h_spacing : ℝ) : ℝ :=
  Real.sqrt ((length_sheet ^ 2 + termD length_sheet h_spacing) / 2)

/-- Perpendicular length `(length_sheet * h_spacing) / L_planar` of source line 65. -/
noncomputable def L_z (length_sheet h_spacing : ℝ) : ℝ :=
  length_sheet * h_spacing / L_planar length_sheet h_spacing

/-- Tilt angle `np.arctan(L_z / L_planar)` of source line 66, in radians. -/
noncomputable def theta (length_sheet h_spacing : ℝ) : ℝ :=
  Real.arctan (L_z length_sheet h_spacing / L_planar length_sheet h_spacing)

/-- Embedding of `solve_box_geometry` (source lines 57-68): raises
`GeometryImpossible` when `length_sheet < 2 * h_spacing`, otherwise returns
the triple `(L_planar, L_z, theta)`. -/
noncomputable def solve_box_geometry (length_sheet h_spacing : ℝ) :
    Except GeomError (ℝ × ℝ × ℝ) :=
  if length_sheet < 2 * h_spacing then
    Except.error GeomError.GeometryImpossible
  else
    Except.ok (L_planar length_sheet h_spacing, L_z length_sheet h_spacing,
      theta length_sheet h_spacing)

lemma solve_box_geometry_of_lt {L s : ℝ} (h : L < 2 * s) :
    solve_box_geometry L s = Except.error GeomError.GeometryImpossible := by
  simp [solve_box_geometry, if_pos h]

lemma solve_box_geometry_of_not_lt {L s : ℝ} (h : ¬ L < 2 * s) :
    solve_box_geometry L s = Except.ok (L_planar L s, L_z L s, theta L s) := by
  simp [solve_box_geometry, if_neg h]

/-! Basic facts about the solver's quantities on the valid domain. -/

lemma disc_nonneg {L s : ℝ} (hs : 0 ≤ s) (h : 2 * s ≤ L) :
    0 ≤ L ^ 4 - 4 * (L * s) ^ 2 := by
  have h1 : 0 ≤ L - 2 * s := by linarith
  have h2 : 0 ≤ L + 2 * s := by linarith
  nlinarith [mul_nonneg (mul_nonneg (sq_nonneg L) h1) h2]

lemma termD_nonneg (L s : ℝ) : 0 ≤ termD L s := Real.sqrt_nonneg _

lemma termD_sq {L s : ℝ} (hs : 0 ≤ s) (h : 2 * s ≤ L) :
    termD L s ^ 2 = L ^ 4 - 4 * (L * s) ^ 2 :=
  Real.sq_sqrt (disc_nonneg hs h)

lemma L_planar_sq (L s : ℝ) :
    L_planar L s ^ 2 = (L ^ 2 + termD L s) / 2 := by
  have h : 0 ≤ (L ^ 2 + termD L s) / 2 := by
    have := termD_nonneg L s
    have := sq_nonneg L
    linarith
  exact Real.sq_sqrt h

lemma L_planar_nonneg (L s : ℝ) : 0 ≤ L_planar L s := Real.sqrt_nonneg _

lemma L_planar_pos {L s : ℝ} (hL : 0 < L) : 0 < L_planar L s := by
  apply Real.sqrt_pos.mpr
  have h1 : 0 < L ^ 2 := by positivity
  have h2 := termD_nonneg L s
  linarith

lemma L_z_pos {L s : ℝ} (hL : 0 < L) (hs : 0 < s) : 0 < L_z L s :=
  div_pos (mul_pos hL hs) (L_planar_pos hL)

/-- Pythagorean identity of the solution: the box closes,
`L_planar ^ 2 + L_z ^ 2 = L ^ 2`. -/
lemma L_planar_sq_add_L_z_sq {L s : ℝ} (hL : 0 < L) (hs : 0 ≤ s)
    (h : 2 * s ≤ L) : L_planar L s ^ 2 + L_z L s ^ 2 = L ^ 2 := by
  have hP := L_planar_pos (s := s) hL
  have hPsq := L_planar_sq L s
  have hT := termD_sq hs h
  have hPne : L_planar L s ≠ 0 := ne_of_gt hP
  rw [L_z, div_pow]
  field_simp
  nlinarith [hPsq, hT]

/-- On the valid domain the perpendicular length never exceeds the planar
length, strictly so when `2 * s < L`. -/
lemma L_z_sq_le_L_planar_sq {L s : ℝ} (hL : 0 < L) (hs : 0 ≤ s)
    (h : 2 * s ≤ L) : L_z L s ^ 2 ≤ L_planar L s ^ 2 := by
  have hpy := L_planar_sq_add_L_z_sq hL hs h
  have hPsq := L_planar_sq L s
  have hT := termD_nonneg L s
  nlinarith

lemma L_z_le_L_planar {L s : ℝ} (hL : 0 < L) (hs : 0 ≤ s)
    (h : 2 * s ≤ L) : L_z L s ≤ L_planar L s := by
  have hsq := L_z_sq_le_L_planar_sq hL hs h
  have hP := L_planar_pos (s := s) hL
  nlinarith [hsq, hP]

lemma L_z_lt_L_planar {L s : ℝ} (hL : 0 < L) (hs : 0 ≤ s)
    (h : 2 * s < L) : L_z L s < L_planar L s := by
  have hpy := L_planar_sq_add_L_z_sq hL hs h.le
  have hPsq := L_planar_sq L s
  have hP := L_planar_pos (s := s) hL
  have hZ : 0 ≤ L_z L s := by
    have := L_planar_nonneg L s
    exact div_nonneg (mul_nonneg hL.le hs) this
  have hT : 0 < termD L s := by
    apply Real.sqrt_pos.mpr
    have h1 : 0 < L - 2 * s := by linarith
    have h2 : 0 < L + 2 * s := by linarith
    have h3 : 0 < L ^ 2 := by positivity
    nlinarith [mul_pos (mul_pos h3 h1) h2]
  nlinarith

lemma L_z_eq_L_planar_iff {L s : ℝ} (hL : 0 < L) (hs : 0 < s)
    (h : 2 * s ≤ L) : L_z L s = L_planar L s ↔ L = 2 * s := by
  constructor
  · intro hZP
    have hpy := L_planar_sq_add_L_z_sq hL hs.le h
    have hPsq := L_planar_sq L s
    have hZ2 : L_z L s ^ 2 = L_planar L s ^ 2 := by rw [hZP]
    have hTz : termD L s = 0 := by linarith [hpy, hPsq, hZ2]
    have hdisc : L ^ 4 - 4 * (L * s) ^ 2 = 0 :=
      (Real.sqrt_eq_zero (disc_nonneg hs.le h)).mp hTz
    have hfac : L ^ 2 * ((L - 2 * s) * (L + 2 * s)) = 0 := by
      linear_combination hdisc
    have hL2 : L ^ 2 ≠ 0 := by positivity
    have hsum : L + 2 * s ≠ 0 := by positivity
    have := (mul_eq_zero.mp hfac).resolve_left hL2
    have := (mul_eq_zero.mp this).resolve_right hsum
    linarith
  · intro hEq
    subst hEq
    have hT : termD (2 * s) s = 0 := by
      have harg : (2 * s) ^ 4 - 4 * (2 * s * s) ^ 2 = 0 := by ring
      rw [termD, harg, Real.sqrt_zero]
    have hP := L_planar_pos (L := 2 * s) (s := s) hL
    have hPsq := L_planar_sq (2 * s) s
    rw [hT] at hPsq
    have hPne : L_planar (2 * s) s ≠ 0 := ne_of_gt hP
    rw [L_z]
    rw [div_eq_iff hPne]
    nlinarith [hPsq]

lemma theta_pos {L s : ℝ} (hL : 0 < L) (hs : 0 < s) : 0 < theta L s := by
  have hP := L_planar_pos (s := s) hL
  have hZ := L_z_pos hL hs
  have hr : 0 < L_z L s / L_planar L s := div_pos hZ hP
  have := Real.arctan_strictMono hr
  rwa [Real.arctan_zero] at this

lemma theta_le_pi_div_four {L s : ℝ} (hL : 0 < L) (hs : 0 ≤ s)
    (h : 2 * s ≤ L) : theta L s ≤ Real.pi / 4 := by
  have hP := L_planar_pos (s := s) hL
  have hr : L_z L s / L_planar L s ≤ 1 :=
    (div_le_one hP).mpr (L_z_le_L_planar hL hs h)
  calc theta L s ≤ Real.arctan 1 := Real.arctan_strictMono.monotone hr
    _ = Real.pi / 4 := Real.arctan_one

lemma theta_eq_pi_div_four_iff {L s : ℝ} (hL : 0 < L) (hs : 0 < s)
    (h : 2 * s ≤ L) : theta L s = Real.pi / 4 ↔ L = 2 * s := by
  have hP := L_planar_pos (s := s) hL
  have hPne : L_planar L s ≠ 0 := ne_of_gt hP
  rw [theta, ← Real.arctan_one, Real.arctan_injective.eq_iff,
    div_eq_one_iff_eq hPne]
  exact L_z_eq_L_planar_iff hL hs h

/-! Degenerate behaviour of the solver at `h_spacing = 0` (the precondition
`spacing > 0` of the spec is never checked by the code). -/

lemma termD_zero_spacing {L : ℝ} : termD L 0 = L ^ 2 := by
  have harg : L ^ 4 - 4 * (L * 0) ^ 2 = (L ^ 2) ^ 2 := by ring
  rw [termD, harg, Real.sqrt_sq (sq_nonneg L)]

lemma L_planar_zero_spacing {L : ℝ} (hL : 0 ≤ L) : L_planar L 0 = L := by
  rw [L_planar, termD_zero_spacing]
  have harg : (L ^ 2 + L ^ 2) / 2 = L ^ 2 := by ring
  rw [harg, Real.sqrt_sq hL]

lemma L_z_zero_spacing {L : ℝ} : L_z L 0 = 0 := by
  rw [L_z, mul_zero, zero_div]

lemma theta_zero_spacing {L : ℝ} : theta L 0 = 0 := by
  rw [theta, L_z_zero_spacing, zero_div, Real.arctan_zero]

/-! Data model of the builder.  The structure library (pymatgen) is not part
of the repository; `Lattice3` / `Structure3` and the operations below model
the collaborator interface the spec describes: lattice from parameters,
fractional/cartesian conversion (a per-axis scale, the lattice being
orthorhombic), supercell replication along one axis, and reconstruction
under a new lattice with periodic wrapping of fractional coordinates
into [0, 1). -/

/-- Lattice given by parameters, the model of
`Lattice.from_parameters(a, b, c, alpha, beta, gamma)`. -/
structure Lattice3 where
  a : ℝ
  b : ℝ
  c : ℝ
  alpha : ℝ
  beta : ℝ
  gamma : ℝ

/-- Periodic structure: a lattice plus an ordered list of sites, each a
chemical label together with its fractional coordinates. -/
structure Structure3 where
  lattice : Lattice3
  sites : List (String × (Fin 3 → ℝ))

/-- Axis lengths of a lattice as a vector indexed by `Fin 3`. -/
def axisLen (lat : Lattice3) : Fin 3 → ℝ := ![lat.a, lat.b, lat.c]

/-- Embedding of `get_rectangular_mos2` (source lines 24-55): the 6-atom
rectangular MoS2 cell, orthorhombic lattice `(a, a*sqrt 3, vacuum)` with all
angles 90, two Mo and four S sites in fractional coordinates. -/
noncomputable def get_rectangular_mos2 (a_lattice thickness vacuum : ℝ) :
    Structure3 :=
  { lattice := ⟨a_lattice, a_lattice * Real.sqrt 3, vacuum, 90, 90, 90⟩,
    sites :=
      [("Mo", ![0, 0, 0.5]),
       ("Mo", ![0.5, 0.5, 0.5]),
       ("S", ![0, 0, 0.5 - thickness / vacuum / 2]),
       ("S", ![0, 0, 0.5 + thickness / vacuum / 2]),
       ("S", ![0.5, 0.5, 0.5 - thickness / vacuum / 2]),
       ("S", ![0.5, 0.5, 0.5 + thickness / vacuum / 2])] }

/-- Model of `struct.make_supercell([N, 1, 1])` (source line 78): the length
axis is multiplied by `N`, the other axes and angles are unchanged, and every
site is replicated into the `N` periodic images along the length axis, the
fractional x coordinate being rescaled to the enlarged cell. -/
noncomputable def make_supercell_x (N : ℕ) (st : Structure3) : Structure3 :=
  { lattice := ⟨N * st.lattice.a, st.lattice.b, st.lattice.c,
      st.lattice.alpha, st.lattice.beta, st.lattice.gamma⟩,
    sites := (List.range N).flatMap fun k =>
      st.sites.map fun site =>
        (site.1, fun i : Fin 3 => if i = 0 then (site.2 0 + k) / N else site.2 i) }

/-- Cartesian view of the sites (source line 81): for an orthorhombic lattice
the fractional-to-cartesian conversion is a per-axis scale. -/
noncomputable def cart_sites (lat : Lattice3)
    (sites : List (String × (Fin 3 → ℝ))) : List (String × (Fin 3 → ℝ)) :=
  sites.map fun site => (site.1, fun i : Fin 3 => site.2 i * axisLen lat i)

/-- Mean of the cartesian z coordinates (source line 85). -/
noncomputable def z_mean (sites : List (String × (Fin 3 → ℝ))) : ℝ :=
  (sites.map fun site => site.2 2).sum / sites.length

/-- Centering of the strip (source line 86): the mean z is subtracted from
every z coordinate, x and y are untouched. -/
noncomputable def center_z (sites : List (String × (Fin 3 → ℝ))) :
    List (String × (Fin 3 → ℝ)) :=
  sites.map fun site =>
    (site.1, fun i : Fin 3 => if i = 2 then site.2 i - z_mean sites else site.2 i)

/-- Rotation matrix about the y axis (source lines 100-104):
`[[c, 0, -s], [0, 1, 0], [s, 0, c]]`. -/
noncomputable def rotation_matrix (t : ℝ) : Matrix (Fin 3) (Fin 3) ℝ :=
  !![Real.cos t, 0, -Real.sin t;
     0, 1, 0;
     Real.sin t, 0, Real.cos t]

/-- Rigid rotation of every site (source line 108): `np.dot(coords, R.T)`
applies `R` to each position vector. -/
noncomputable def rotate_sites (t : ℝ)
    (sites : List (String × (Fin 3 → ℝ))) : List (String × (Fin 3 → ℝ)) :=
  sites.map fun site => (site.1, (rotation_matrix t).mulVec site.2)

/-- Wrapping into the new box (source lines 115-121): cartesian positions are
re-expressed as fractional coordinates of the new lattice and reduced modulo
one on every axis. -/
noncomputable def wrap_sites (lat : Lattice3)
    (sites : List (String × (Fin 3 → ℝ))) : List (String × (Fin 3 → ℝ)) :=
  sites.map fun site =>
    (site.1, fun i : Fin 3 => Int.fract (site.2 i / axisLen lat i))

/-- Replicated strip of step 1-2 of the builder (source lines 72-78), with the
fixed defaults `thickness = 3.12`, `vacuum = 20.0` of the source. -/
noncomputable def strip (N : ℕ) (a_param : ℝ) : Structure3 :=
  make_supercell_x N (get_rectangular_mos2 a_param 3.12 20.0)

/-- Embedding of `create_tilted_cell` (source lines 70-123): build the strip,
take the cartesian coordinates, center z on its mean, solve the geometry for
`total_length = struct.lattice.a`, rotate rigidly by the tilt angle, build the
new orthorhombic lattice `(L_planar, old_b, L_z)` with all angles 90 and wrap
the rotated positions into it.  A solver failure propagates unchanged. -/
noncomputable def create_tilted_cell (N : ℕ) (h_spacing a_param : ℝ) :
    Except GeomError (Structure3 × ℝ) :=
  let struct := strip N a_param
  let centered := center_z (cart_sites struct.lattice struct.sites)
  match solve_box_geometry struct.lattice.a h_spacing with
  | Except.error e => Except.error e
  | Except.ok (Lp, Lz, t) =>
      let new_lattice : Lattice3 := ⟨Lp, struct.lattice.b, Lz, 90, 90, 90⟩
      Except.ok (⟨new_lattice, wrap_sites new_lattice (rotate_sites t centered)⟩, t)

lemma strip_lattice_a (N : ℕ) (a : ℝ) : (strip N a).lattice.a = N * a := rfl

lemma strip_lattice_b (N : ℕ) (a : ℝ) :
    (strip N a).lattice.b = a * Real.sqrt 3 := rfl

/-- Evaluation of the builder on the valid domain. -/
lemma create_tilted_cell_ok (N : ℕ) (s a : ℝ) (h : ¬ (N : ℝ) * a < 2 * s) :
    create_tilted_cell N s a =
      Except.ok
        (⟨⟨L_planar (N * a) s, a * Real.sqrt 3, L_z (N * a) s, 90, 90, 90⟩,
          wrap_sites
            ⟨L_planar (N * a) s, a * Real.sqrt 3, L_z (N * a) s, 90, 90, 90⟩
            (rotate_sites (theta (N * a) s)
              (center_z (cart_sites (strip N a).lattice (strip N a).sites)))⟩,
        theta ((N : ℝ) * a) s) := by
  have ha : (strip N a).lattice.a = (N : ℝ) * a := rfl
  simp only [create_tilted_cell, ha, solve_box_geometry_of_not_lt h,
    strip_lattice_b]

/-- Evaluation of the builder on the invalid domain: the solver's failure
propagates unchanged. -/
lemma create_tilted_cell_error (N : ℕ) (s a : ℝ) (h : (N : ℝ) * a < 2 * s) :
    create_tilted_cell N s a = Except.error GeomError.GeometryImpossible := by
  have ha : (strip N a).lattice.a = (N : ℝ) * a := rfl
  simp only [create_tilted_cell, ha, solve_box_geometry_of_lt h]

/-! Shape lemmas for the site pipeline: every stage is a `List.map`, so it
preserves the length of the site list and the per-site labels. -/

lemma cart_sites_map_fst (lat : Lattice3) (l : List (String × (Fin 3 → ℝ))) :
    (cart_sites lat l).map Prod.fst = l.map Prod.fst := by
  simp only [cart_sites, List.map_map]
  rfl

lemma center_z_map_fst (l : List (String × (Fin 3 → ℝ))) :
    (center_z l).map Prod.fst = l.map Prod.fst := by
  simp only [center_z, List.map_map]
  rfl

lemma rotate_sites_map_fst (t : ℝ) (l : List (String × (Fin 3 → ℝ))) :
    (rotate_sites t l).map Prod.fst = l.map Prod.fst := by
  simp only [rotate_sites, List.map_map]
  rfl

lemma wrap_sites_map_fst (lat : Lattice3) (l : List (String × (Fin 3 → ℝ))) :
    (wrap_sites lat l).map Prod.fst = l.map Prod.fst := by
  simp only [wrap_sites, List.map_map]
  rfl

lemma cart_sites_length (lat : Lattice3) (l : List (String × (Fin 3 → ℝ))) :
    (cart_sites lat l).length = l.length := by
  simp [cart_sites]

lemma center_z_length (l : List (String × (Fin 3 → ℝ))) :
    (center_z l).length = l.length := by
  simp [center_z]

lemma rotate_sites_length (t : ℝ) (l : List (String × (Fin 3 → ℝ))) :
    (rotate_sites t l).length = l.length := by
  simp [rotate_sites]

lemma wrap_sites_length (lat : Lattice3) (l : List (String × (Fin 3 → ℝ))) :
    (wrap_sites lat l).length = l.length := by
  simp [wrap_sites]

/-- The replicated strip has `6 * N` sites: `N` images of the 6-atom cell. -/
lemma strip_sites_length (N : ℕ) (a : ℝ) : (strip N a).sites.length = 6 * N := by
  simp [strip, make_supercell_x, get_rectangular_mos2, Function.comp_def,
    List.map_const', List.sum_replicate, smul_eq_mul]
  omega

/-! Claim theorems. -/

/-- C1: for every sheetLength > 0 and spacing > 0, the geometry solver raises
`GeometryImpossible` and produces no result when `sheetLength < 2 * spacing`,
and raises no error and returns a triple when `sheetLength ≥ 2 * spacing`.
The witness instantiates the failing concrete scenario
`sheetLength = 10.0, spacing = 6.0`. -/
theorem C1_solver_guard (L s : ℝ) (hL : 0 < L) (hs : 0 < s) :
    (L < 2 * s →
      solve_box_geometry L s = Except.error GeomError.GeometryImpossible) ∧
    (2 * s ≤ L →
      solve_box_geometry L s =
        Except.ok (L_planar L s, L_z L s, theta L s)) :=
  ⟨fun h => solve_box_geometry_of_lt h,
   fun h => solve_box_geometry_of_not_lt (not_lt.mpr h)⟩

theorem C1_solver_guard_witness :
    solve_box_geometry 10 6 = Except.error GeomError.GeometryImpossible ∧
    solve_box_geometry 14 6 = Except.ok (L_planar 14 6, L_z 14 6, theta 14 6) :=
  ⟨(C1_solver_guard 10 6 (by norm_num) (by norm_num)).1 (by norm_num),
   (C1_solver_guard 14 6 (by norm_num) (by norm_num)).2 (by norm_num)⟩

/-- C2: on the valid domain the solver returns exactly the closed-form
positive-root solution: `Lp ^ 2 = (L ^ 2 + sqrt (L ^ 4 - 4 (L s) ^ 2)) / 2`,
`Lz = L * s / Lp`, `t = arctan (Lz / Lp)`; moreover `Lp ^ 2` satisfies the
quadratic `x ^ 2 - L ^ 2 x + (L s) ^ 2 = 0` and is never below the
negative-root value, i.e. the positive root is the one selected. -/
theorem C2_closed_form (L s : ℝ) (hs : 0 < s) (h : 2 * s ≤ L) :
    ∃ Lp Lz t, solve_box_geometry L s = Except.ok (Lp, Lz, t) ∧
      Lp ^ 2 = (L ^ 2 + Real.sqrt (L ^ 4 - 4 * (L * s) ^ 2)) / 2 ∧
      Lz = L * s / Lp ∧
      t = Real.arctan (Lz / Lp) ∧
      Lp ^ 4 - L ^ 2 * Lp ^ 2 + (L * s) ^ 2 = 0 ∧
      (L ^ 2 - Real.sqrt (L ^ 4 - 4 * (L * s) ^ 2)) / 2 ≤ Lp ^ 2 := by
  refine ⟨L_planar L s, L_z L s, theta L s,
    solve_box_geometry_of_not_lt (not_lt.mpr h), ?_, rfl, rfl, ?_, ?_⟩
  · have hPsq := L_planar_sq L s
    simpa only [termD] using hPsq
  · have hPsq := L_planar_sq L s
    have hT := termD_sq hs.le h
    linear_combination
      (L_planar L s ^ 2 + (L ^ 2 + termD L s) / 2 - L ^ 2) * hPsq +
        (1 / 4) * hT
  · have hPsq := L_planar_sq L s
    have hT : 0 ≤ Real.sqrt (L ^ 4 - 4 * (L * s) ^ 2) := Real.sqrt_nonneg _
    have hT2 : termD L s = Real.sqrt (L ^ 4 - 4 * (L * s) ^ 2) := rfl
    rw [hT2] at hPsq
    linarith

theorem C2_closed_form_witness :
    ∃ Lp Lz t, solve_box_geometry (318 / 10) 15 = Except.ok (Lp, Lz, t) ∧
      Lp ^ 2 =
        ((318 / 10 : ℝ) ^ 2 +
          Real.sqrt ((318 / 10) ^ 4 - 4 * ((318 / 10) * 15) ^ 2)) / 2 ∧
      Lz = (318 / 10) * 15 / Lp ∧
      t = Real.arctan (Lz / Lp) := by
  obtain ⟨Lp, Lz, t, h1, h2, h3, h4, -, -⟩ :=
    C2_closed_form (318 / 10) 15 (by norm_num) (by norm_num)
  exact ⟨Lp, Lz, t, h1, h2, h3, h4⟩

/-- C3: on the valid domain the returned triple closes the box,
`Lp ^ 2 + Lz ^ 2 = L ^ 2`, with `t = arctan (Lz / Lp)`; and strictly inside
the domain (`2 s < L`) the perpendicular length is strictly below the planar
length.  The witness instantiates the concrete scenario
`sheetLength = 31.8, spacing = 15.0`. -/
theorem C3_box_closure (L s : ℝ) (hs : 0 < s) (h : 2 * s ≤ L) :
    ∃ Lp Lz t, solve_box_geometry L s = Except.ok (Lp, Lz, t) ∧
      Lp ^ 2 + Lz ^ 2 = L ^ 2 ∧ t = Real.arctan (Lz / Lp) ∧
      (2 * s < L → Lz < Lp) := by
  have hL : 0 < L := by linarith
  exact ⟨L_planar L s, L_z L s, theta L s,
    solve_box_geometry_of_not_lt (not_lt.mpr h),
    L_planar_sq_add_L_z_sq hL hs.le h, rfl,
    fun hlt => L_z_lt_L_planar hL hs.le hlt⟩

theorem C3_box_closure_witness :
    ∃ Lp Lz t, solve_box_geometry (318 / 10) 15 = Except.ok (Lp, Lz, t) ∧
      Lp ^ 2 + Lz ^ 2 = (318 / 10 : ℝ) ^ 2 ∧
      t = Real.arctan (Lz / Lp) ∧ Lz < Lp := by
  obtain ⟨Lp, Lz, t, h1, h2, h3, h4⟩ :=
    C3_box_closure (318 / 10) 15 (by norm_num) (by norm_num)
  exact ⟨Lp, Lz, t, h1, h2, h3, h4 (by norm_num)⟩

/-- C4: on the valid domain the tilt angle lies strictly above 0 and at most
pi / 4, attaining pi / 4 exactly when `L = 2 * s`; and the angle returned by
`create_tilted_cell` is the solver's angle for `L = N * a`, hence lies in the
same range. -/
theorem C4_tilt_angle_range (L s : ℝ) (hs : 0 < s) (h : 2 * s ≤ L) :
    (0 < theta L s ∧ theta L s ≤ Real.pi / 4 ∧
      (theta L s = Real.pi / 4 ↔ L = 2 * s)) ∧
    ∀ (N : ℕ) (a : ℝ) (st : Structure3) (t : ℝ),
      create_tilted_cell N s a = Except.ok (st, t) → (N : ℝ) * a = L →
        0 < t ∧ t ≤ Real.pi / 4 := by
  have hL : 0 < L := by linarith
  refine ⟨⟨theta_pos hL hs, theta_le_pi_div_four hL hs.le h,
    theta_eq_pi_div_four_iff hL hs h⟩, ?_⟩
  intro N a st t hok hNa
  by_cases hlt : (N : ℝ) * a < 2 * s
  · rw [create_tilted_cell_error N s a hlt] at hok
    exact absurd hok (by simp)
  · rw [create_tilted_cell_ok N s a hlt] at hok
    have ht : t = theta ((N : ℝ) * a) s :=
      (congrArg Prod.snd (Except.ok.inj hok)).symm
    rw [ht, hNa]
    exact ⟨theta_pos hL hs, theta_le_pi_div_four hL hs.le h⟩

theorem C4_tilt_angle_range_witness :
    0 < theta (318 / 10) 15 ∧ theta (318 / 10) 15 ≤ Real.pi / 4 := by
  have h := (C4_tilt_angle_range (318 / 10) 15 (by norm_num) (by norm_num)).1
  exact ⟨h.1, h.2.1⟩

/-- C10: the solver never checks the documented precondition `spacing > 0`:
for every `sheetLength > 0` with `spacing = 0` it raises no error and returns
the degenerate triple `(sheetLength, 0, 0)`, whose tilt angle 0 lies outside
the range (0, pi/4] guaranteed for valid inputs. -/
theorem C10_zero_spacing_unchecked (L : ℝ) (hL : 0 < L) :
    solve_box_geometry L 0 = Except.ok (L, 0, 0) := by
  have h : ¬ L < 2 * 0 := by linarith
  rw [solve_box_geometry_of_not_lt h]
  rw [L_planar_zero_spacing hL.le, L_z_zero_spacing, theta_zero_spacing]

theorem C10_zero_spacing_unchecked_witness :
    solve_box_geometry 5 0 = Except.ok (5, 0, 0) :=
  C10_zero_spacing_unchecked 5 (by norm_num)

/-- C5: in the cell returned by `create_tilted_cell`, every atom's fractional
coordinate along every axis lies in the half-open interval [0, 1): the rotated
absolute positions are re-expressed as fractional coordinates of the new box
and each component is reduced modulo one per axis. -/
theorem C5_wrapped_into_unit_box (N : ℕ) (s a : ℝ) (st : Structure3) (t : ℝ)
    (h : create_tilted_cell N s a = Except.ok (st, t)) :
    ∀ site ∈ st.sites, ∀ i : Fin 3, 0 ≤ site.2 i ∧ site.2 i < 1 := by
  by_cases hlt : (N : ℝ) * a < 2 * s
  · rw [create_tilted_cell_error N s a hlt] at h
    exact absurd h (by simp)
  · rw [create_tilted_cell_ok N s a hlt] at h
    injection h with h2
    injection h2 with ha hb
    subst ha
    intro site hsite i
    simp only [wrap_sites, List.mem_map] at hsite
    obtain ⟨x, -, rfl⟩ := hsite
    exact ⟨Int.fract_nonneg _, Int.fract_lt_one _⟩

theorem C5_wrapped_into_unit_box_witness :
    ∃ st t, create_tilted_cell 1 1 3 = Except.ok (st, t) ∧
      ∀ site ∈ st.sites, ∀ i : Fin 3, 0 ≤ site.2 i ∧ site.2 i < 1 := by
  have hok := create_tilted_cell_ok 1 1 3 (by norm_num)
  exact ⟨_, _, hok, C5_wrapped_into_unit_box 1 1 3 _ _ hok⟩

/-- C6: for every replication count `N ≥ 1`, the cell returned by
`create_tilted_cell` contains exactly `6 * N` atoms, the atom count of the
replicated sheet, and the ordered list of chemical labels is identical to the
replicated sheet's, so every atom keeps its label and the species multiset is
unchanged: rotation and wrapping never add, drop, or relabel atoms. -/
theorem C6_atoms_preserved (N : ℕ) (s a : ℝ) (st : Structure3) (t : ℝ)
    (hN : 1 ≤ N) (h : create_tilted_cell N s a = Except.ok (st, t)) :
    st.sites.length = 6 * N ∧
    st.sites.length = (strip N a).sites.length ∧
    st.sites.map Prod.fst = (strip N a).sites.map Prod.fst := by
  by_cases hlt : (N : ℝ) * a < 2 * s
  · rw [create_tilted_cell_error N s a hlt] at h
    exact absurd h (by simp)
  · rw [create_tilted_cell_ok N s a hlt] at h
    injection h with h2
    injection h2 with ha hb
    subst ha
    refine ⟨?_, ?_, ?_⟩
    · simp only [wrap_sites_length, rotate_sites_length, center_z_length,
        cart_sites_length, strip_sites_length]
    · simp only [wrap_sites_length, rotate_sites_length, center_z_length,
        cart_sites_length]
    · simp only [wrap_sites_map_fst, rotate_sites_map_fst, center_z_map_fst,
        cart_sites_map_fst]

theorem C6_atoms_preserved_witness :
    ∃ st t, create_tilted_cell 1 1 3 = Except.ok (st, t) ∧
      st.sites.length = 6 * 1 ∧
      st.sites.map Prod.fst = (strip 1 3).sites.map Prod.fst := by
  have hok := create_tilted_cell_ok 1 1 3 (by norm_num)
  obtain ⟨h1, -, h3⟩ :=
    C6_atoms_preserved 1 1 3 _ _ (by norm_num) hok
  exact ⟨_, _, hok, h1, h3⟩

/-- C7: the single rotation matrix for angle `t` about the unchanged in-plane
axis sends every position vector `p` to
`(cos t * x - sin t * z, y, sin t * x + cos t * z)`, and the rotation step of
the builder applies this one matrix identically to every atom of the site
list. -/
theorem C7_rotation_componentwise (t : ℝ) :
    (∀ p : Fin 3 → ℝ,
      (rotation_matrix t).mulVec p 0 = Real.cos t * p 0 - Real.sin t * p 2 ∧
      (rotation_matrix t).mulVec p 1 = p 1 ∧
      (rotation_matrix t).mulVec p 2 = Real.sin t * p 0 + Real.cos t * p 2) ∧
    ∀ sites : List (String × (Fin 3 → ℝ)),
      rotate_sites t sites =
        sites.map fun site => (site.1, (rotation_matrix t).mulVec site.2) := by
  refine ⟨fun p => ⟨?_, ?_, ?_⟩, fun sites => rfl⟩ <;>
    simp [rotation_matrix, Matrix.mulVec, Matrix.dotProduct,
      Fin.sum_univ_three] <;>
    ring

/-- Euclidean distance between two cartesian position vectors. -/
noncomputable def dist3 (p q : Fin 3 → ℝ) : ℝ :=
  Real.sqrt (∑ i, (p i - q i) ^ 2)

/-- C8: the rigid rotation step preserves all pairwise inter-atomic
distances: for any two absolute positions `p` and `q`, the Euclidean distance
between the rotated positions equals the distance between `p` and `q`. -/
theorem C8_rotation_preserves_distances (t : ℝ) (p q : Fin 3 → ℝ) :
    dist3 ((rotation_matrix t).mulVec p) ((rotation_matrix t).mulVec q) =
      dist3 p q := by
  rw [dist3, dist3]
  congr 1
  simp only [rotation_matrix, Matrix.mulVec, Matrix.dotProduct,
    Fin.sum_univ_three]
  simp
  linear_combination ((p 0 - q 0) ^ 2 + (p 2 - q 2) ^ 2) *
    Real.sin_sq_add_cos_sq t

/-- C9: the box of the cell returned by `create_tilted_cell` is orthorhombic
with all three lattice angles exactly 90 and axis lengths exactly
`(L_planar, b, L_z)`, where `b` is the unchanged in-plane axis length of the
replicated flat sheet (`a * sqrt 3`) and `L_planar`, `L_z` come from the
geometry solver at `sheetLength = N * a`; the tilt appears only in the axis
lengths, never in a non-90 angle. -/
theorem C9_orthorhombic_box (N : ℕ) (s a : ℝ) (st : Structure3) (t : ℝ)
    (h : create_tilted_cell N s a = Except.ok (st, t)) :
    st.lattice.alpha = 90 ∧ st.lattice.beta = 90 ∧ st.lattice.gamma = 90 ∧
    st.lattice.a = L_planar ((N : ℝ) * a) s ∧
    st.lattice.b = (strip N a).lattice.b ∧
    st.lattice.b = a * Real.sqrt 3 ∧
    st.lattice.c = L_z ((N : ℝ) * a) s := by
  by_cases hlt : (N : ℝ) * a < 2 * s
  · rw [create_tilted_cell_error N s a hlt] at h
    exact absurd h (by simp)
  · rw [create_tilted_cell_ok N s a hlt] at h
    injection h with h2
    injection h2 with ha hb
    subst ha
    exact ⟨rfl, rfl, rfl, rfl, (strip_lattice_b N a).symm, rfl, rfl⟩

theorem C9_orthorhombic_box_witness :
    ∃ st t, create_tilted_cell 1 1 3 = Except.ok (st, t) ∧
      st.lattice.alpha = 90 ∧ st.lattice.beta = 90 ∧ st.lattice.gamma = 90 ∧
      st.lattice.a = L_planar ((1 : ℕ) * 3 : ℝ) 1 ∧
      st.lattice.b = 3 * Real.sqrt 3 ∧
      st.lattice.c = L_z ((1 : ℕ) * 3 : ℝ) 1 := by
  have hok := create_tilted_cell_ok 1 1 3 (by norm_num)
  obtain ⟨h1, h2, h3, h4, -, h6, h7⟩ := C9_orthorhombic_box 1 1 3 _ _ hok
  exact ⟨_, _, hok, h1, h2, h3, h4, h6, h7⟩

end Rotation
